import Mathlib

/-!
Verification development for the jellyfin-collection repository.

The definitions below are a shallow embedding of the algorithmic core of
`src/jfc/services/collection_builder.py` (provider-result deduplication,
declarative filters, collection ordering, and collection reconciliation) and
of the media matcher contract.  Python `Optional` values become `Option`;
Python truthiness of optional ints/strings/lists is modelled explicitly
(`0`, `""` and `[]` are falsy); Python `set` becomes `Finset`; Python floats
(vote averages, community ratings) become `Rat`, which preserves order
structure; Python's stable `sorted` becomes an insertion sort that is stable
by construction.  Network calls are modelled by passing each call's result in
as data and recording issued mutations as an explicit operation list.
-/

namespace JFC

/-- Media kind, from `jfc.models.media.MediaType` ("movie" | "series"). -/
inductive MediaType where
  | movie
  | series
deriving DecidableEq

/-- Catalog item as produced by the provider adapters (`jfc.models.media.MediaItem`),
restricted to the fields read by `collection_builder.py`: title, optional year,
kind, the three external ids, and the descriptive attributes used by
`_apply_filters`. -/
structure MediaItem where
  title : String
  year : Option Int
  media_type : MediaType
  tmdb_id : Option Int
  imdb_id : Option String
  tvdb_id : Option Int
  vote_average : Option Rat
  vote_count : Option Int
  genres : List (Sum Int String)
  original_language : Option String
  original_country : Option String
deriving DecidableEq

/-- Library entry as read back from Jellyfin (`jfc.models.media.LibraryItem`),
restricted to the fields the matcher reads. -/
structure LibraryItem where
  jellyfin_id : String
  title : String
  year : Option Int
  media_type : MediaType
  tmdb_id : Option Int
  imdb_id : Option String
  tvdb_id : Option Int
  library_id : String
deriving DecidableEq

/-- Loop of the dedup step of `CollectionBuilder._fetch_items`
(collection_builder.py lines 341-350): walk the concatenated provider results,
keep an item only when `item.tmdb_id` is truthy (present and nonzero) and not
yet in `seen_ids`; every kept item's id is added to `seen_ids`.  Items whose
`tmdb_id` is falsy never reach `unique_items`. -/
def dedupAux : List Int → List MediaItem → List MediaItem
  | _, [] => []
  | seen, x :: xs =>
    match x.tmdb_id with
    | some t =>
      if t != 0 && !seen.contains t then x :: dedupAux (t :: seen) xs
      else dedupAux seen xs
    | none => dedupAux seen xs

/-- Dedup step of `_fetch_items` started with an empty `seen_ids` set. -/
def fetchDedup (items : List MediaItem) : List MediaItem :=
  dedupAux [] items

/-- Sequential accumulation of provider results in `_fetch_items`
(collection_builder.py lines 280-339): each enabled source is awaited in turn
and its list extended onto `items`; an exception raised by any source
propagates immediately (there is no try/except around the provider calls), so
the whole fetch aborts at the first failing source. -/
def collectSources {ε : Type} : List (Except ε (List MediaItem)) → Except ε (List MediaItem)
  | [] => Except.ok []
  | Except.error e :: _ => Except.error e
  | Except.ok xs :: rest =>
    match collectSources rest with
    | Except.error e => Except.error e
    | Except.ok ys => Except.ok (xs ++ ys)

/-- Whole of `_fetch_items`: concatenate the per-source results (aborting on the
first raised error), then deduplicate by TMDb id. -/
def fetchItems {ε : Type} (sources : List (Except ε (List MediaItem))) :
    Except ε (List MediaItem) :=
  match collectSources sources with
  | Except.error e => Except.error e
  | Except.ok items => Except.ok (fetchDedup items)

/-- Filter block of a collection configuration (`config.filters`), restricted to
the fields read by `_apply_filters` (collection_builder.py lines 427-496). -/
structure Filters where
  year_gte : Option Int
  year_lte : Option Int
  vote_average_gte : Option Rat
  critic_rating_gte : Option Rat
  tmdb_vote_count_gte : Option Int
  country_not : List String
  origin_country_not : List String
  original_language_not : List String
  without_genres : List Int
  with_genres : List Int
deriving DecidableEq

/-- Genre normalisation from `_apply_filters`: `g if isinstance(g, int) else
int(g) if str(g).isdigit() else 0`. -/
def genreId : Sum Int String → Int
  | Sum.inl n => n
  | Sum.inr s =>
    match s.toNat? with
    | some n => (n : Int)
    | none => 0

/-- Guard `if filters.year_gte and item.year and item.year < filters.year_gte`
of `_apply_filters` (Python truthiness: a year of `0` or `None` is falsy). -/
def rejYearGte (f : Filters) (i : MediaItem) : Bool :=
  match f.year_gte, i.year with
  | some g, some y => g != 0 && y != 0 && decide (y < g)
  | _, _ => false

/-- Guard `if filters.year_lte and item.year and item.year > filters.year_lte`. -/
def rejYearLte (f : Filters) (i : MediaItem) : Bool :=
  match f.year_lte, i.year with
  | some g, some y => g != 0 && y != 0 && decide (y > g)
  | _, _ => false

/-- Guard `if filters.vote_average_gte and item.vote_average: if
item.vote_average < filters.vote_average_gte`. -/
def rejVoteAvg (f : Filters) (i : MediaItem) : Bool :=
  match f.vote_average_gte, i.vote_average with
  | some g, some v => g != 0 && v != 0 && decide (v < g)
  | _, _ => false

/-- Guard `if filters.critic_rating_gte and item.vote_average: if
item.vote_average < filters.critic_rating_gte`. -/
def rejCritic (f : Filters) (i : MediaItem) : Bool :=
  match f.critic_rating_gte, i.vote_average with
  | some g, some v => g != 0 && v != 0 && decide (v < g)
  | _, _ => false

/-- Guard `if filters.tmdb_vote_count_gte and item.vote_count: if
item.vote_count < filters.tmdb_vote_count_gte`. -/
def rejVoteCount (f : Filters) (i : MediaItem) : Bool :=
  match f.tmdb_vote_count_gte, i.vote_count with
  | some g, some v => g != 0 && v != 0 && decide (v < g)
  | _, _ => false

/-- Guard `if filters.country_not and item.original_country: if
item.original_country in filters.country_not`. -/
def rejCountryNot (f : Filters) (i : MediaItem) : Bool :=
  match i.original_country with
  | some c => !f.country_not.isEmpty && c != "" && f.country_not.contains c
  | none => false

/-- Guard `if filters.origin_country_not and item.original_country: ...`. -/
def rejOriginCountryNot (f : Filters) (i : MediaItem) : Bool :=
  match i.original_country with
  | some c => !f.origin_country_not.isEmpty && c != "" && f.origin_country_not.contains c
  | none => false

/-- Guard `if filters.original_language_not and item.original_language: ...`. -/
def rejLangNot (f : Filters) (i : MediaItem) : Bool :=
  match i.original_language with
  | some c => !f.original_language_not.isEmpty && c != "" && f.original_language_not.contains c
  | none => false

/-- Guard `if filters.without_genres and item.genres: if any(g in item_genre_ids
for g in filters.without_genres)`. -/
def rejWithoutGenres (f : Filters) (i : MediaItem) : Bool :=
  !f.without_genres.isEmpty && !i.genres.isEmpty &&
    f.without_genres.any (fun g => (i.genres.map genreId).contains g)

/-- Guard `if filters.with_genres and item.genres: if not any(g in item_genre_ids
for g in filters.with_genres)`. -/
def rejWithGenres (f : Filters) (i : MediaItem) : Bool :=
  !f.with_genres.isEmpty && !i.genres.isEmpty &&
    !(f.with_genres.any (fun g => (i.genres.map genreId).contains g))

/-- Body of the `_apply_filters` loop: an item is appended to `filtered` iff no
`continue` guard fires.  The guards are stateless, so the sequential
`continue` chain is the negation of their disjunction, in source order. -/
def itemPasses (f : Filters) (i : MediaItem) : Bool :=
  !(rejYearGte f i || rejYearLte f i || rejVoteAvg f i || rejCritic f i ||
    rejVoteCount f i || rejCountryNot f i || rejOriginCountryNot f i ||
    rejLangNot f i || rejWithoutGenres f i || rejWithGenres f i)

/-- Whole of `_apply_filters` (collection_builder.py lines 427-496): keep the
items passing every guard, then `filtered[: config.limit]` when `config.limit`
is truthy (a limit of `None` or `0` leaves the list untruncated). -/
def applyFilters (f : Filters) (limit : Option Nat) (items : List MediaItem) :
    List MediaItem :=
  let filtered := items.filter (itemPasses f)
  match limit with
  | some n => if n != 0 then filtered.take n else filtered
  | none => filtered

/-- Calendar date as used by `datetime.date` for the sort keys: compared
lexicographically by (year, month, day). -/
structure PyDate where
  year : Int
  month : Nat
  day : Nat
deriving DecidableEq

/-- Lexicographic key of a date, giving `PyDate` its order. -/
def PyDate.key (d : PyDate) : Int ×ₗ (Nat ×ₗ Nat) :=
  toLex (d.year, toLex (d.month, d.day))

instance : LinearOrder PyDate :=
  LinearOrder.lift' PyDate.key (by
    intro a b h
    cases a
    cases b
    simpa [PyDate.key, Prod.ext_iff] using h)

/-- Smallest representable date, `datetime.date.min` = 0001-01-01. -/
def PyDate.min : PyDate := ⟨1, 1, 1⟩

/-- Collection entry (`jfc.models.collection.CollectionItem`), restricted to the
fields read by `sync_collection` and `_sort_items_for_collection`. -/
structure CollectionItem where
  title : String
  year : Option Int
  tmdb_id : Option Int
  imdb_id : Option String
  tvdb_id : Option Int
  jellyfin_id : Option String
  media_type : String
  matched : Bool
  in_library : Bool
  sort_name : Option String
  premiere_date : Option PyDate
  community_rating : Option Rat
  critic_rating : Option Rat
  date_created : Option PyDate
deriving DecidableEq

/-- Ordering policy (`jfc.models.collection.CollectionOrder`). -/
inductive CollectionOrder where
  | custom
  | random
  | sort_name
  | premiere_date
  | community_rating
  | critic_rating
  | date_created
deriving DecidableEq

/-- Python `a or b` on an optional string: `b` when `a` is `None` or `""`. -/
def orElseStr : Option String → String → String
  | some s, dflt => if s != "" then s else dflt
  | none, dflt => dflt

/-- Key of `sort_key_name`: `(x.sort_name or x.title).lower()`. -/
def sortKeyName (x : CollectionItem) : String :=
  (orElseStr x.sort_name x.title).toLower

/-- Date used by `sort_key_premiere`: `x.premiere_date or (date(x.year, 1, 1)
if x.year else date.min)` (a year of `0` is falsy in Python). -/
def effPremiere (x : CollectionItem) : PyDate :=
  match x.premiere_date with
  | some d => d
  | none =>
    match x.year with
    | some y => if y != 0 then ⟨y, 1, 1⟩ else PyDate.min
    | none => PyDate.min

/-- Key of `sort_key_premiere`: the tuple `(d, x.title)`, compared
lexicographically as Python compares tuples. -/
def sortKeyPremiere (x : CollectionItem) : PyDate ×ₗ String :=
  toLex (effPremiere x, x.title)

/-- Key of `sort_key_rating`: `(-(x.community_rating or 0), x.title)`. -/
def sortKeyRating (x : CollectionItem) : Rat ×ₗ String :=
  toLex (-(x.community_rating.getD 0), x.title)

/-- Key of `sort_key_critic`: `(-(x.critic_rating or 0), x.title)`. -/
def sortKeyCritic (x : CollectionItem) : Rat ×ₗ String :=
  toLex (-(x.critic_rating.getD 0), x.title)

/-- Key of `sort_key_created`: `(x.date_created or date.min, x.title)`. -/
def sortKeyCreated (x : CollectionItem) : PyDate ×ₗ String :=
  toLex (x.date_created.getD PyDate.min, x.title)

/-- Comparator of Python `sorted(items, key=k)`: stable, ascending by key. -/
def ascLe {α β : Type} [LinearOrder β] (k : α → β) (a b : α) : Bool :=
  decide (k a ≤ k b)

/-- Comparator of Python `sorted(items, key=k, reverse=True)`: stable,
descending by key (every comparison reversed, equal keys keep input order). -/
def descLe {α β : Type} [LinearOrder β] (k : α → β) (a b : α) : Bool :=
  decide (k b ≤ k a)

/-- Insertion of an element into a sorted list, placing `x` before the first
element `y` with `le x y`; combined with `pySorted` this realises exactly the
stable sort semantics of Python's `sorted`. -/
def pyInsert {α : Type} (le : α → α → Bool) (x : α) : List α → List α
  | [] => [x]
  | y :: ys => if le x y then x :: y :: ys else y :: pyInsert le x ys

/-- Stable sort with respect to a boolean comparator `le` (read `le a b` as
"a may come before b"): the embedding of Python's `sorted`. -/
def pySorted {α : Type} (le : α → α → Bool) : List α → List α
  | [] => []
  | x :: xs => pyInsert le x (pySorted le xs)

/-- Whole of `_sort_items_for_collection` (collection_builder.py lines
498-562): `custom` keeps the source order, `random` shuffles (the shuffle is
passed in as a function since it draws on the PRNG), the remaining policies
are Python's stable `sorted` with the key functions above, with
`reverse=True` exactly for `PREMIERE_DATE` and `DATE_CREATED`. -/
def sortItemsForCollection (shuffle : List CollectionItem → List CollectionItem)
    (items : List CollectionItem) (order : CollectionOrder) : List CollectionItem :=
  match order with
  | .custom => items
  | .random => shuffle items
  | .sort_name => pySorted (ascLe sortKeyName) items
  | .premiere_date => pySorted (descLe sortKeyPremiere) items
  | .community_rating => pySorted (ascLe sortKeyRating) items
  | .critic_rating => pySorted (ascLe sortKeyCritic) items
  | .date_created => pySorted (descLe sortKeyCreated) items

/-- Remote collection-membership mutation issued by `sync_collection`.  The
ids of one call are a set because the Python code passes `list(...)` of a
set, whose order is unspecified. -/
inductive MemberOp where
  | removeItems (ids : Finset String)
  | addItems (ids : Finset String)
deriving DecidableEq

/-- Observable outcome of one `sync_collection` call: the returned counts, the
remote operations issued, and the resulting remote collection table. -/
structure SyncResult where
  added : Nat
  removed : Nat
  createdCollection : Bool
  memberOps : List MemberOp
  metadataUpdated : Bool
  posterUploaded : Bool
  arrStepRun : Bool
  collections : List (String × Finset String)
deriving DecidableEq

/-- Target id list of `sync_collection` (collection_builder.py lines 197-207):
sort the items, then `[item.jellyfin_id for item in sorted_items if
item.jellyfin_id]` (truthiness: `None` and `""` are skipped). -/
def collectionTargetList (shuffle : List CollectionItem → List CollectionItem)
    (order : CollectionOrder) (items : List CollectionItem) : List String :=
  (sortItemsForCollection shuffle items order).filterMap
    (fun it =>
      match it.jellyfin_id with
      | some s => if s != "" then some s else none
      | none => none)

/-- Target id set `target_ids = set(target_ids_list)`. -/
def collectionTarget (shuffle : List CollectionItem → List CollectionItem)
    (order : CollectionOrder) (items : List CollectionItem) : Finset String :=
  (collectionTargetList shuffle order items).toFinset

/-- Update of the remote collection table: replace the members of the first
collection with the given name, appending a fresh entry when absent. -/
def setMembers : List (String × Finset String) → String → Finset String →
    List (String × Finset String)
  | [], n, m => [(n, m)]
  | c :: cs, n, m => if c.1 = n then (n, m) :: cs else c :: setMembers cs n m

/-- Whole of `sync_collection` (collection_builder.py lines 157-272).  The
remote collection table `state` stands for what `get_collections` /
`get_collection_items` return; a missing entry means the collection does not
exist yet and `create_collection` yields an empty one.  Mirrors the dry-run
early return, the diff `to_add = target - current`, `to_remove = current -
target`, the reorder decision `order != CUSTOM and (to_add or to_remove or
not existing)`, the clear+readd branch (guarded by a nonempty target list),
the plain add/remove branch, the unconditional metadata update, the optional
poster upload and the optional *arr step. -/
def syncCollection (dryRun : Bool)
    (shuffle : List CollectionItem → List CollectionItem) (name : String)
    (order : CollectionOrder) (items : List CollectionItem)
    (hasPoster : Bool) (addMissingToArr : Bool)
    (state : List (String × Finset String)) : SyncResult :=
  if dryRun then
    { added := 0, removed := 0, createdCollection := false, memberOps := [],
      metadataUpdated := false, posterUploaded := false, arrStepRun := false,
      collections := state }
  else
    let found := state.find? (fun c => c.1 == name)
    let existing := found.isSome
    let current_ids : Finset String := (found.map Prod.snd).getD ∅
    let target_ids_list := collectionTargetList shuffle order items
    let target_ids : Finset String := target_ids_list.toFinset
    let to_add := target_ids \ current_ids
    let to_remove := current_ids \ target_ids
    let needs_reorder := (order != CollectionOrder.custom) &&
      (decide (to_add ≠ ∅) || decide (to_remove ≠ ∅) || !existing)
    let memberOps :=
      if needs_reorder && !target_ids_list.isEmpty then
        (if decide (current_ids ≠ ∅) then [MemberOp.removeItems current_ids] else []) ++
          [MemberOp.addItems target_ids]
      else
        (if decide (to_add ≠ ∅) then [MemberOp.addItems to_add] else []) ++
          (if decide (to_remove ≠ ∅) then [MemberOp.removeItems to_remove] else [])
    let newMembers :=
      if needs_reorder && !target_ids_list.isEmpty then target_ids
      else current_ids \ to_remove ∪ to_add
    { added := to_add.card, removed := to_remove.card,
      createdCollection := !existing,
      memberOps := memberOps,
      metadataUpdated := true,
      posterUploaded := hasPoster,
      arrStepRun := addMissingToArr,
      collections := setMembers state name newMembers }

/-- Lower-casing of one character, spec step "Lower-case the input". -/
def lowerChar (c : Char) : Char := c.toLower

/-- Modelled from the spec: `jfc/services/media_matcher.py` is not part of the
given sources (only its unit tests are), so this is spec step "Replace every
character that is not an alphanumeric character or whitespace with a single
space". -/
def keepChar (c : Char) : Char :=
  if c.isAlphanum || c.isWhitespace then c else ' '

/-- Splitting of a character list into its maximal whitespace-free words; `acc`
holds the current word reversed. -/
def wordsAux : List Char → List Char → List (List Char)
  | [], acc => if acc.isEmpty then [] else [acc.reverse]
  | c :: cs, acc =>
    if c.isWhitespace then
      if acc.isEmpty then wordsAux cs []
      else acc.reverse :: wordsAux cs []
    else wordsAux cs (c :: acc)

/-- Joining of words with single spaces, realising spec step "Collapse
consecutive whitespace to a single space and trim leading/trailing
whitespace" when applied to `wordsAux`. -/
def unwords (ws : List (List Char)) : List Char :=
  (ws.intersperse [' ']).flatten

/-- Modelled from the spec: the article list of the missing
`media_matcher.py`, pinned by its unit tests to the English articles plus the
French ones of the deployment's working language. -/
def articleTokens : List (List Char) :=
  ["the", "a", "an", "le", "la", "les", "un", "une"].map String.data

/-- Modelled from the spec: "Strip a single leading definite/indefinite
article token only when it is the very first word, followed by whitespace".
At most one token is stripped, and only when the characters right after it
start with whitespace. -/
def stripOneArticle (cs : List Char) : List Char :=
  match articleTokens.findSome? (fun a =>
    if cs.take a.length == a && (cs.drop a.length).head?.any Char.isWhitespace
    then some (cs.drop a.length) else none) with
  | some rest => rest
  | none => cs

/-- Modelled from the spec: the Identity Normalizer pipeline of §4.1 in the
spec's order — lower-case, strip one leading article, replace non-alphanumeric
non-whitespace characters by spaces, collapse whitespace and trim. -/
def normalizeChars (cs : List Char) : List Char :=
  unwords (wordsAux ((stripOneArticle (cs.map lowerChar)).map keepChar) [])

/-- Modelled from the spec: `MediaMatcher._normalize_title` as a function on
strings. -/
def normalize_title (s : String) : String :=
  String.mk (normalizeChars s.data)

/-- Common fields the match predicate reads from either side (both `MediaItem`
and `LibraryItem` carry them). -/
structure MatchFields where
  title : String
  year : Option Int
  tmdb_id : Option Int
  imdb_id : Option String
  tvdb_id : Option Int
deriving DecidableEq

/-- Presence-respecting id comparison: true only when both sides carry the id
and the values agree. -/
def sameId {α : Type} [DecidableEq α] : Option α → Option α → Bool
  | some x, some y => x == y
  | _, _ => false

/-- Modelled from the spec: the year condition of the match predicate — an
absent year on either side is a wildcard, two present years must differ by at
most 1. -/
def yearClose : Option Int → Option Int → Bool
  | some x, some y => decide ((x - y).natAbs ≤ 1)
  | _, _ => true

/-- Modelled from the spec: `MediaMatcher._is_match` of the missing
`media_matcher.py` (§4.3 of the spec, pinned by `tests/unit/test_media_matcher.py`):
same primary id, or same secondary id, or same tertiary id, or equal
normalized titles with the year condition. -/
def isMatchF (a b : MatchFields) : Bool :=
  sameId a.tmdb_id b.tmdb_id || sameId a.imdb_id b.imdb_id ||
    sameId a.tvdb_id b.tvdb_id ||
    (normalize_title a.title == normalize_title b.title && yearClose a.year b.year)

/-- Match-relevant projection of a catalog item. -/
def MediaItem.matchFields (i : MediaItem) : MatchFields :=
  ⟨i.title, i.year, i.tmdb_id, i.imdb_id, i.tvdb_id⟩

/-- Match-relevant projection of a library item. -/
def LibraryItem.matchFields (i : LibraryItem) : MatchFields :=
  ⟨i.title, i.year, i.tmdb_id, i.imdb_id, i.tvdb_id⟩

/-- Modelled from the spec: `_is_match(item, lib_item)` applied to a catalog
item and a library item. -/
def is_match (a : MediaItem) (b : LibraryItem) : Bool :=
  isMatchF a.matchFields b.matchFields

/-- Truthiness of `item.tmdb_id` as tested by the dedup guard: present and
nonzero. -/
def truthyTmdb (i : MediaItem) : Bool :=
  match i.tmdb_id with
  | some t => t != 0
  | none => false

/-- TMDb id of an item as plain integer (0 when absent, matching Python
falsiness of both). -/
def tmdbKey (i : MediaItem) : Int :=
  i.tmdb_id.getD 0

/-- Sample movie catalog item with the given title, year and TMDb id; every
other attribute absent. -/
def mkMovie (t : String) (y : Option Int) (tm : Option Int) : MediaItem :=
  { title := t, year := y, media_type := .movie, tmdb_id := tm, imdb_id := none,
    tvdb_id := none, vote_average := none, vote_count := none, genres := [],
    original_language := none, original_country := none }

/-- Sample library item with the given title, year and TMDb id. -/
def mkLib (t : String) (y : Option Int) (tm : Option Int) : LibraryItem :=
  { jellyfin_id := "jf-1", title := t, year := y, media_type := .movie,
    tmdb_id := tm, imdb_id := none, tvdb_id := none, library_id := "lib-1" }

/-- Sample collection item with the given title, Jellyfin id and sort name;
every other attribute absent. -/
def mkCItem (t : String) (jf : Option String) (sn : Option String) : CollectionItem :=
  { title := t, year := none, tmdb_id := none, imdb_id := none, tvdb_id := none,
    jellyfin_id := jf, media_type := "movie", matched := jf.isSome,
    in_library := jf.isSome, sort_name := sn, premiere_date := none,
    community_rating := none, critic_rating := none, date_created := none }

/-! Generic facts about the embedded stable sort. -/

theorem pyInsert_perm {α : Type} (le : α → α → Bool) (x : α) (l : List α) :
    (pyInsert le x l).Perm (x :: l) := by
  induction l with
  | nil => simp [pyInsert]
  | cons y ys ih =>
    by_cases h : le x y = true
    · simp [pyInsert, h]
    · simp only [pyInsert, h, if_false, Bool.false_eq_true]
      exact (ih.cons y).trans (List.Perm.swap x y ys)

theorem pySorted_perm {α : Type} (le : α → α → Bool) (l : List α) :
    (pySorted le l).Perm l := by
  induction l with
  | nil => simp [pySorted]
  | cons x xs ih => exact (pyInsert_perm le x _).trans (ih.cons x)

theorem pyInsert_pairwise {α : Type} (le : α → α → Bool)
    (htrans : ∀ a b c, le a b = true → le b c = true → le a c = true)
    (htot : ∀ a b, le a b = true ∨ le b a = true)
    (x : α) (l : List α) (hl : l.Pairwise (fun a b => le a b = true)) :
    (pyInsert le x l).Pairwise (fun a b => le a b = true) := by
  induction l with
  | nil => simp [pyInsert]
  | cons y ys ih =>
    rcases List.pairwise_cons.mp hl with ⟨hy, hys⟩
    by_cases h : le x y = true
    · simp only [pyInsert, h, if_true]
      refine List.pairwise_cons.mpr ⟨?_, hl⟩
      intro b hb
      rcases List.mem_cons.mp hb with hb | hb
      · exact hb ▸ h
      · exact htrans x y b h (hy b hb)
    · simp only [pyInsert, h, if_false, Bool.false_eq_true]
      refine List.pairwise_cons.mpr ⟨?_, ih hys⟩
      intro b hb
      have hb2 := (pyInsert_perm le x ys).mem_iff.mp hb
      rcases List.mem_cons.mp hb2 with hb3 | hb3
      · subst hb3
        rcases htot y b with hyb | hby
        · exact hyb
        · exact absurd hby h
      · exact hy b hb3

theorem pySorted_pairwise {α : Type} (le : α → α → Bool)
    (htrans : ∀ a b c, le a b = true → le b c = true → le a c = true)
    (htot : ∀ a b, le a b = true ∨ le b a = true) (l : List α) :
    (pySorted le l).Pairwise (fun a b => le a b = true) := by
  induction l with
  | nil => simp [pySorted]
  | cons x xs ih => exact pyInsert_pairwise le htrans htot x _ ih

theorem pyInsert_filter {α : Type} (le : α → α → Bool) (p : α → Bool)
    (hp : ∀ a b, p a = true → p b = true → le a b = true) (x : α) (l : List α) :
    (pyInsert le x l).filter p =
      if p x = true then x :: l.filter p else l.filter p := by
  induction l with
  | nil => by_cases h : p x = true <;> simp [pyInsert, List.filter, h]
  | cons y ys ih =>
    by_cases hxy : le x y = true
    · by_cases hx : p x = true <;>
        simp [pyInsert, hxy, List.filter_cons, hx]
    · by_cases hx : p x = true
      · have hy : p y = false := by
          rcases Bool.eq_false_or_eq_true (p y) with h2 | h2
          · exact absurd (hp x y hx h2) hxy
          · exact h2
        simp [pyInsert, hxy, List.filter_cons, hy, ih, hx]
      · simp [pyInsert, hxy, List.filter_cons, ih, hx]

theorem pySorted_filter {α : Type} (le : α → α → Bool) (p : α → Bool)
    (hp : ∀ a b, p a = true → p b = true → le a b = true) (l : List α) :
    (pySorted le l).filter p = l.filter p := by
  induction l with
  | nil => simp [pySorted]
  | cons x xs ih =>
    rw [pySorted, pyInsert_filter le p hp, List.filter_cons]
    by_cases hx : p x = true <;> simp [hx, ih]

theorem ascLe_trans {α β : Type} [LinearOrder β] (k : α → β) :
    ∀ a b c, ascLe k a b = true → ascLe k b c = true → ascLe k a c = true := by
  intro a b c hab hbc
  simp only [ascLe, decide_eq_true_eq] at *
  exact le_trans hab hbc

theorem ascLe_total {α β : Type} [LinearOrder β] (k : α → β) :
    ∀ a b, ascLe k a b = true ∨ ascLe k b a = true := by
  intro a b
  simp only [ascLe, decide_eq_true_eq]
  exact le_total _ _

theorem descLe_trans {α β : Type} [LinearOrder β] (k : α → β) :
    ∀ a b c, descLe k a b = true → descLe k b c = true → descLe k a c = true := by
  intro a b c hab hbc
  simp only [descLe, decide_eq_true_eq] at *
  exact le_trans hbc hab

theorem descLe_total {α β : Type} [LinearOrder β] (k : α → β) :
    ∀ a b, descLe k a b = true ∨ descLe k b a = true := by
  intro a b
  simp only [descLe, decide_eq_true_eq]
  exact le_total _ _

/-! Facts about the dedup loop of `_fetch_items`. -/

theorem dedupAux_cons_none (seen : List Int) (x : MediaItem) (xs : List MediaItem)
    (h : x.tmdb_id = none) :
    dedupAux seen (x :: xs) = dedupAux seen xs := by
  simp [dedupAux, h]

theorem dedupAux_cons_keep (seen : List Int) (x : MediaItem) (xs : List MediaItem)
    (t : Int) (h : x.tmdb_id = some t) (ht : t ≠ 0) (hs : t ∉ seen) :
    dedupAux seen (x :: xs) = x :: dedupAux (t :: seen) xs := by
  simp only [dedupAux, h]
  rw [if_pos (show (t != 0 && !seen.contains t) = true by simp [ht, hs])]

theorem dedupAux_cons_zero (seen : List Int) (x : MediaItem) (xs : List MediaItem)
    (h : x.tmdb_id = some 0) :
    dedupAux seen (x :: xs) = dedupAux seen xs := by
  simp [dedupAux, h]

theorem dedupAux_cons_seen (seen : List Int) (x : MediaItem) (xs : List MediaItem)
    (t : Int) (h : x.tmdb_id = some t) (hs : t ∈ seen) :
    dedupAux seen (x :: xs) = dedupAux seen xs := by
  simp only [dedupAux, h]
  rw [if_neg (show ¬ (t != 0 && !seen.contains t) = true by simp [hs])]

theorem dedupAux_sublist (seen : List Int) (l : List MediaItem) :
    (dedupAux seen l).Sublist l := by
  induction l generalizing seen with
  | nil => simp [dedupAux]
  | cons x xs ih =>
    cases h : x.tmdb_id with
    | none =>
      rw [dedupAux_cons_none seen x xs h]
      exact (ih seen).cons x
    | some t =>
      by_cases ht : t = 0
      · rw [ht] at h
        rw [dedupAux_cons_zero seen x xs h]
        exact (ih seen).cons x
      · by_cases hs : t ∈ seen
        · rw [dedupAux_cons_seen seen x xs t h hs]
          exact (ih seen).cons x
        · rw [dedupAux_cons_keep seen x xs t h ht hs]
          exact (ih (t :: seen)).cons₂ x

theorem dedupAux_mem (seen : List Int) (l : List MediaItem) :
    ∀ x ∈ dedupAux seen l, truthyTmdb x = true ∧ tmdbKey x ∉ seen := by
  induction l generalizing seen with
  | nil => simp [dedupAux]
  | cons x xs ih =>
    cases h : x.tmdb_id with
    | none =>
      rw [dedupAux_cons_none seen x xs h]
      exact ih seen
    | some t =>
      by_cases ht : t = 0
      · rw [ht] at h
        rw [dedupAux_cons_zero seen x xs h]
        exact ih seen
      · by_cases hs : t ∈ seen
        · rw [dedupAux_cons_seen seen x xs t h hs]
          exact ih seen
        · rw [dedupAux_cons_keep seen x xs t h ht hs]
          intro y hy
          rcases List.mem_cons.mp hy with hy | hy
          · subst hy
            refine ⟨by simp [truthyTmdb, h, ht], ?_⟩
            simp only [tmdbKey, h, Option.getD_some]
            exact hs
          · have hrec := ih (t :: seen) y hy
            exact ⟨hrec.1, fun hm => hrec.2 (List.mem_cons_of_mem t hm)⟩

theorem dedupAux_pairwise (seen : List Int) (l : List MediaItem) :
    (dedupAux seen l).Pairwise (fun a b => tmdbKey a ≠ tmdbKey b) := by
  induction l generalizing seen with
  | nil => simp [dedupAux]
  | cons x xs ih =>
    cases h : x.tmdb_id with
    | none =>
      rw [dedupAux_cons_none seen x xs h]
      exact ih seen
    | some t =>
      by_cases ht : t = 0
      · rw [ht] at h
        rw [dedupAux_cons_zero seen x xs h]
        exact ih seen
      · by_cases hs : t ∈ seen
        · rw [dedupAux_cons_seen seen x xs t h hs]
          exact ih seen
        · rw [dedupAux_cons_keep seen x xs t h ht hs]
          refine List.pairwise_cons.mpr ⟨?_, ih (t :: seen)⟩
          intro b hb
          have hrec := (dedupAux_mem (t :: seen) xs b hb).2
          simp only [tmdbKey, h, Option.getD_some]
          intro he
          exact hrec (he ▸ List.mem_cons_self t seen)

theorem dedupAux_first (seen : List Int) (l : List MediaItem) :
    ∀ y ∈ dedupAux seen l,
      (l.filter (fun z => truthyTmdb z && tmdbKey z == tmdbKey y)).head? = some y := by
  induction l generalizing seen with
  | nil => simp [dedupAux]
  | cons x xs ih =>
    cases h : x.tmdb_id with
    | none =>
      rw [dedupAux_cons_none seen x xs h]
      intro y hy
      have hx : truthyTmdb x = false := by simp [truthyTmdb, h]
      rw [List.filter_cons]
      simp only [hx, Bool.false_and, if_false, Bool.false_eq_true]
      exact ih seen y hy
    | some t =>
      by_cases ht : t = 0
      · rw [ht] at h
        rw [dedupAux_cons_zero seen x xs h]
        intro y hy
        have hx : truthyTmdb x = false := by simp [truthyTmdb, h]
        rw [List.filter_cons]
        simp only [hx, Bool.false_and, if_false, Bool.false_eq_true]
        exact ih seen y hy
      · by_cases hs : t ∈ seen
        · rw [dedupAux_cons_seen seen x xs t h hs]
          intro y hy
          have hy2 := (dedupAux_mem seen xs y hy).2
          have hne : tmdbKey y ≠ t := by
            intro he
            exact hy2 (he ▸ hs)
          have hx : (truthyTmdb x && tmdbKey x == tmdbKey y) = false := by
            have hk : (tmdbKey x == tmdbKey y) = false := by
              rw [beq_eq_false_iff_ne]
              intro he
              apply hne
              rw [← he]
              simp [tmdbKey, h]
            simp [hk]
          rw [List.filter_cons]
          simp only [hx, if_false, Bool.false_eq_true]
          exact ih seen y hy
        · rw [dedupAux_cons_keep seen x xs t h ht hs]
          intro y hy
          rcases List.mem_cons.mp hy with hy | hy
          · subst hy
            have htr : truthyTmdb y = true := by simp [truthyTmdb, h, ht]
            rw [List.filter_cons]
            simp [htr]
          · have hne : tmdbKey y ≠ t := by
              have hrec := (dedupAux_mem (t :: seen) xs y hy).2
              intro he
              exact hrec (he ▸ List.mem_cons_self t seen)
            have hx : (truthyTmdb x && tmdbKey x == tmdbKey y) = false := by
              have hk : (tmdbKey x == tmdbKey y) = false := by
                rw [beq_eq_false_iff_ne]
                intro he
                apply hne
                rw [← he]
                simp [tmdbKey, h]
              simp [hk]
            rw [List.filter_cons]
            simp only [hx, if_false, Bool.false_eq_true]
            exact ih (t :: seen) y hy

theorem dedupAux_cover (seen : List Int) (l : List MediaItem) :
    ∀ x ∈ l, truthyTmdb x = true → tmdbKey x ∉ seen →
      ∃ y ∈ dedupAux seen l, tmdbKey y = tmdbKey x := by
  induction l generalizing seen with
  | nil => simp
  | cons x xs ih =>
    intro z hz htr hns
    cases h : x.tmdb_id with
    | none =>
      rw [dedupAux_cons_none seen x xs h]
      rcases List.mem_cons.mp hz with hz | hz
      · subst hz
        simp [truthyTmdb, h] at htr
      · exact ih seen z hz htr hns
    | some t =>
      by_cases ht : t = 0
      · rw [ht] at h
        rw [dedupAux_cons_zero seen x xs h]
        rcases List.mem_cons.mp hz with hz | hz
        · subst hz
          simp [truthyTmdb, h] at htr
        · exact ih seen z hz htr hns
      · by_cases hs : t ∈ seen
        · rw [dedupAux_cons_seen seen x xs t h hs]
          rcases List.mem_cons.mp hz with hz | hz
          · exfalso
            subst hz
            apply hns
            have he : tmdbKey z = t := by simp [tmdbKey, h]
            exact he ▸ hs
          · exact ih seen z hz htr hns
        · rw [dedupAux_cons_keep seen x xs t h ht hs]
          by_cases hk : tmdbKey z = t
          · refine ⟨x, List.mem_cons_self x _, ?_⟩
            simp only [tmdbKey, h, Option.getD_some]
            exact hk.symm
          · have hns2 : tmdbKey z ∉ t :: seen := by
              intro hm
              rcases List.mem_cons.mp hm with hm | hm
              · exact hk hm
              · exact hns hm
            rcases List.mem_cons.mp hz with hz | hz
            · exfalso
              apply hk
              subst hz
              simp [tmdbKey, h]
            · rcases ih (t :: seen) z hz htr hns2 with ⟨y, hy, hk2⟩
              exact ⟨y, List.mem_cons_of_mem x hy, hk2⟩

/-! Facts about `sync_collection`. -/

theorem find_setMembers (s : List (String × Finset String)) (n : String)
    (m : Finset String) :
    (setMembers s n m).find? (fun c => c.1 == n) = some (n, m) := by
  induction s with
  | nil => simp [setMembers]
  | cons c cs ih =>
    by_cases h : c.1 = n
    · simp [setMembers, h]
    · simp [setMembers, h, ih]

theorem sdiff_union_target (c T : Finset String) : c \ (c \ T) ∪ T \ c = T := by
  rw [Finset.sdiff_sdiff_self_left, Finset.inter_comm, Finset.union_comm,
    Finset.sdiff_union_inter]

theorem ite_members_eq (b : Bool) (c T : Finset String) :
    (if b = true then T else c \ (c \ T) ∪ T \ c) = T := by
  by_cases hb : b = true
  · rw [if_pos hb]
  · rw [if_neg hb]
    exact sdiff_union_target c T

theorem sync_members_eq_target (shuffle : List CollectionItem → List CollectionItem)
    (name : String) (order : CollectionOrder) (items : List CollectionItem)
    (p a : Bool) (state : List (String × Finset String)) :
    ((syncCollection false shuffle name order items p a state).collections).find?
      (fun c => c.1 == name) = some (name, collectionTarget shuffle order items) := by
  simp only [syncCollection, Bool.false_eq_true, if_false]
  rw [find_setMembers]
  simp only [collectionTarget]
  rw [ite_members_eq]

theorem sync_noop_of_current_eq_target
    (shuffle : List CollectionItem → List CollectionItem) (name : String)
    (order : CollectionOrder) (items : List CollectionItem) (p a : Bool)
    (state : List (String × Finset String))
    (h : state.find? (fun c => c.1 == name) =
      some (name, collectionTarget shuffle order items)) :
    (syncCollection false shuffle name order items p a state).memberOps = [] ∧
    (syncCollection false shuffle name order items p a state).added = 0 ∧
    (syncCollection false shuffle name order items p a state).removed = 0 := by
  simp [syncCollection, h, collectionTarget, Finset.sdiff_self]

/-! Facts about the Identity Normalizer. -/

theorem map_eq_self_of_fix {α : Type} (l : List α) (f : α → α)
    (h : ∀ x ∈ l, f x = x) : l.map f = l := by
  induction l with
  | nil => rfl
  | cons x xs ih =>
    simp only [List.map_cons, h x (List.mem_cons_self x xs)]
    rw [ih (fun y hy => h y (List.mem_cons_of_mem x hy))]

theorem lowerChar_idem (c : Char) : lowerChar (lowerChar c) = lowerChar c := by
  unfold lowerChar Char.toLower
  by_cases h : c.toNat ≥ 65 ∧ c.toNat ≤ 90
  · rw [if_pos h]
    have hv : (c.toNat + 32).isValidChar := Or.inl (by omega)
    have ht : (Char.ofNat (c.toNat + 32)).toNat = c.toNat + 32 := by
      simp only [Char.ofNat]
      rw [dif_pos hv]
      exact rfl
    simp only [ht]
    rw [if_neg (by omega)]
  · rw [if_neg h, if_neg h]

theorem keepChar_idem (c : Char) : keepChar (keepChar c) = keepChar c := by
  unfold keepChar
  by_cases h : (c.isAlphanum || c.isWhitespace) = true
  · simp [h]
  · simp [h]

theorem wordsAux_good (cs : List Char) (acc : List Char)
    (hacc : ∀ c ∈ acc, c.isWhitespace = false) :
    ∀ w ∈ wordsAux cs acc, w ≠ [] ∧ ∀ c ∈ w, c.isWhitespace = false := by
  induction cs generalizing acc with
  | nil =>
    by_cases he : acc.isEmpty = true
    · simp [wordsAux, he]
    · simp only [wordsAux, he, if_false, Bool.false_eq_true]
      intro w hw
      rcases List.mem_singleton.mp hw with rfl
      refine ⟨?_, ?_⟩
      · simp only [ne_eq, List.reverse_eq_nil_iff]
        exact fun hn => he (by simp [hn])
      · intro c hc
        exact hacc c (List.mem_reverse.mp hc)
  | cons d cs ih =>
    by_cases hw : d.isWhitespace = true
    · by_cases he : acc.isEmpty = true
      · simp only [wordsAux, hw, if_true, he]
        exact ih [] (by simp)
      · simp only [wordsAux, hw, if_true, he, if_false, Bool.false_eq_true]
        intro w hmem
        rcases List.mem_cons.mp hmem with hmem | hmem
        · subst hmem
          refine ⟨?_, ?_⟩
          · simp only [ne_eq, List.reverse_eq_nil_iff]
            exact fun hn => he (by simp [hn])
          · intro c hc
            exact hacc c (List.mem_reverse.mp hc)
        · exact ih [] (by simp) w hmem
    · simp only [wordsAux, hw, if_false, Bool.false_eq_true]
      refine ih (d :: acc) ?_
      intro c hc
      rcases List.mem_cons.mp hc with rfl | hc
      · exact Bool.eq_false_iff.mpr hw
      · exact hacc c hc

theorem wordsAux_subset (cs : List Char) (acc : List Char) :
    ∀ w ∈ wordsAux cs acc, ∀ c ∈ w, c ∈ cs ∨ c ∈ acc := by
  induction cs generalizing acc with
  | nil =>
    by_cases he : acc.isEmpty = true
    · simp [wordsAux, he]
    · simp only [wordsAux, he, if_false, Bool.false_eq_true]
      intro w hw c hc
      rcases List.mem_singleton.mp hw with rfl
      exact Or.inr (List.mem_reverse.mp hc)
  | cons d cs ih =>
    by_cases hw : d.isWhitespace = true
    · by_cases he : acc.isEmpty = true
      · simp only [wordsAux, hw, if_true, he]
        intro w hmem c hc
        rcases ih [] w hmem c hc with h | h
        · exact Or.inl (List.mem_cons_of_mem d h)
        · simp at h
      · simp only [wordsAux, hw, if_true, he, if_false, Bool.false_eq_true]
        intro w hmem c hc
        rcases List.mem_cons.mp hmem with hmem | hmem
        · subst hmem
          exact Or.inr (List.mem_reverse.mp hc)
        · rcases ih [] w hmem c hc with h | h
          · exact Or.inl (List.mem_cons_of_mem d h)
          · simp at h
    · simp only [wordsAux, hw, if_false, Bool.false_eq_true]
      intro w hmem c hc
      rcases ih (d :: acc) w hmem c hc with h | h
      · exact Or.inl (List.mem_cons_of_mem d h)
      · rcases List.mem_cons.mp h with rfl | h
        · exact Or.inl (List.mem_cons_self c cs)
        · exact Or.inr h

theorem unwords_cons_cons (w v : List Char) (rest : List (List Char)) :
    unwords (w :: v :: rest) = w ++ ' ' :: unwords (v :: rest) := by
  simp [unwords, List.intersperse]

theorem unwords_chars (ws : List (List Char)) :
    ∀ c ∈ unwords ws, c = ' ' ∨ ∃ w ∈ ws, c ∈ w := by
  induction ws with
  | nil => simp [unwords]
  | cons w rest ih =>
    cases rest with
    | nil =>
      intro c hc
      simp only [unwords, List.intersperse, List.flatten] at hc
      right
      exact ⟨w, List.mem_singleton_self w, by simpa using hc⟩
    | cons v rest2 =>
      intro c hc
      rw [unwords_cons_cons] at hc
      rcases List.mem_append.mp hc with hc | hc
      · exact Or.inr ⟨w, List.mem_cons_self w _, hc⟩
      · rcases List.mem_cons.mp hc with rfl | hc
        · exact Or.inl rfl
        · rcases ih c hc with h | ⟨u, hu, hcu⟩
          · exact Or.inl h
          · exact Or.inr ⟨u, List.mem_cons_of_mem w hu, hcu⟩

theorem wordsAux_append_word (w r : List Char) (acc : List Char)
    (hw : ∀ c ∈ w, c.isWhitespace = false) :
    wordsAux (w ++ r) acc = wordsAux r (w.reverse ++ acc) := by
  induction w generalizing acc with
  | nil => simp
  | cons c w ih =>
    have hc : c.isWhitespace = false := hw c (List.mem_cons_self c w)
    simp only [List.cons_append, wordsAux, hc, if_false, Bool.false_eq_true]
    rw [List.reverse_cons, List.append_assoc, List.singleton_append]
    exact ih (c :: acc) (fun y hy => hw y (List.mem_cons_of_mem c hy))

theorem wordsAux_unwords (ws : List (List Char))
    (h : ∀ w ∈ ws, w ≠ [] ∧ ∀ c ∈ w, c.isWhitespace = false) :
    wordsAux (unwords ws) [] = ws := by
  induction ws with
  | nil => simp [unwords, wordsAux]
  | cons w rest ih =>
    have hw := h w (List.mem_cons_self w rest)
    have hrev : (w.reverse).isEmpty = false := by
      rcases Bool.eq_false_or_eq_true w.reverse.isEmpty with h2 | h2
      · exfalso
        exact hw.1 (by simpa using (List.isEmpty_iff.mp h2))
      · exact h2
    cases rest with
    | nil =>
      have := wordsAux_append_word w [] [] hw.2
      simp only [List.append_nil] at this
      rw [unwords, List.intersperse]
      simp only [List.flatten, List.append_nil]
      rw [this, wordsAux, if_neg (by simp [hrev])]
      simp
    | cons v rest2 =>
      rw [unwords_cons_cons]
      rw [wordsAux_append_word w (' ' :: unwords (v :: rest2)) [] hw.2]
      simp only [List.append_nil]
      rw [wordsAux]
      rw [if_pos (by exact rfl), if_neg (by simp [hrev])]
      rw [List.reverse_reverse]
      rw [ih (fun u hu => h u (List.mem_cons_of_mem w hu))]

theorem stripOneArticle_mem (cs : List Char) :
    ∀ x ∈ stripOneArticle cs, x ∈ cs := by
  unfold stripOneArticle
  cases hfs : articleTokens.findSome? (fun a =>
    if cs.take a.length == a && (cs.drop a.length).head?.any Char.isWhitespace
    then some (cs.drop a.length) else none) with
  | none => simp
  | some rest =>
    rcases List.exists_of_findSome?_eq_some hfs with ⟨a, _, hfa⟩
    by_cases hcond : (cs.take a.length == a &&
        (cs.drop a.length).head?.any Char.isWhitespace) = true
    · rw [if_pos hcond] at hfa
      intro x hx
      rcases Option.some.injEq _ _ ▸ hfa with h2
      have hrest : rest = cs.drop a.length := by
        injection hfa with h3
        exact h3.symm
      rw [hrest] at hx
      exact List.mem_of_mem_drop hx
    · rw [if_neg hcond] at hfa
      exact absurd hfa (by simp)

theorem normalizeChars_mem (cs : List Char) :
    ∀ c ∈ normalizeChars cs, lowerChar c = c ∧ keepChar c = c := by
  intro c hc
  unfold normalizeChars at hc
  rcases unwords_chars _ c hc with rfl | ⟨w, hw, hcw⟩
  · exact ⟨rfl, rfl⟩
  · have hgood := wordsAux_good _ [] (by simp) w hw
    have hnws : c.isWhitespace = false := hgood.2 c hcw
    have hmem := wordsAux_subset _ [] w hw c hcw
    rcases hmem with hmem | hmem
    · rcases List.mem_map.mp hmem with ⟨x, hx, hxc⟩
      by_cases hcond : (x.isAlphanum || x.isWhitespace) = true
      · have hcx : c = x := by
          rw [← hxc]
          simp [keepChar, hcond]
        have hx2 := stripOneArticle_mem _ x hx
        rcases List.mem_map.mp hx2 with ⟨y, _, hy⟩
        constructor
        · rw [hcx, ← hy]
          exact lowerChar_idem y
        · rw [hcx]
          simp [keepChar, hcond]
      · exfalso
        have hsp : c = ' ' := by
          rw [← hxc]
          simp [keepChar, hcond]
        rw [hsp] at hnws
        simp at hnws
    · simp at hmem

theorem normalizeChars_idem (cs : List Char)
    (h : stripOneArticle (normalizeChars cs) = normalizeChars cs) :
    normalizeChars (normalizeChars cs) = normalizeChars cs := by
  have hlow : (normalizeChars cs).map lowerChar = normalizeChars cs :=
    map_eq_self_of_fix _ _ (fun x hx => (normalizeChars_mem cs x hx).1)
  have hkeep : (normalizeChars cs).map keepChar = normalizeChars cs :=
    map_eq_self_of_fix _ _ (fun x hx => (normalizeChars_mem cs x hx).2)
  conv_lhs => rw [normalizeChars]
  rw [hlow, h, hkeep]
  conv_lhs => rw [normalizeChars]
  rw [wordsAux_unwords _ (wordsAux_good _ [] (by simp))]
  exact rfl

theorem normalize_title_idem_of (s : String)
    (h : stripOneArticle (normalize_title s).data = (normalize_title s).data) :
    normalize_title (normalize_title s) = normalize_title s := by
  unfold normalize_title at h ⊢
  exact congrArg String.mk (normalizeChars_idem s.data h)

/-! Facts about the match predicate. -/

theorem sameId_iff {α : Type} [DecidableEq α] (o p : Option α) :
    sameId o p = true ↔ ∃ x, o = some x ∧ p = some x := by
  cases o <;> cases p <;> simp [sameId]
  exact eq_comm

theorem yearClose_iff (o p : Option Int) :
    yearClose o p = true ↔ (o = none ∨ p = none ∨
      ∃ x y, o = some x ∧ p = some y ∧ (x - y).natAbs ≤ 1) := by
  cases o <;> cases p <;> simp [yearClose]

theorem sameId_comm {α : Type} [DecidableEq α] (o p : Option α) :
    sameId o p = sameId p o := by
  cases o with
  | none => cases p <;> rfl
  | some x =>
    cases p with
    | none => rfl
    | some y =>
      simp only [sameId]
      rw [Bool.eq_iff_iff]
      simp only [beq_iff_eq]
      exact eq_comm

theorem yearClose_comm (o p : Option Int) : yearClose o p = yearClose p o := by
  cases o <;> cases p <;> try rfl
  simp only [yearClose]
  rw [Bool.eq_iff_iff]
  simp only [decide_eq_true_eq]
  omega

theorem beqStr_comm (s t : String) : (s == t) = (t == s) := by
  rw [Bool.eq_iff_iff]
  simp only [beq_iff_eq]
  exact eq_comm

theorem collectSources_error {ε : Type} (pre : List (List MediaItem)) (e : ε)
    (post : List (Except ε (List MediaItem))) :
    collectSources ((pre.map Except.ok) ++ Except.error e :: post) = Except.error e := by
  induction pre with
  | nil => rfl
  | cons xs rest ih => simp [collectSources, ih]

/-! Claim theorems. -/

/-- Claim C1, counterexample: the claim states that an item lacking a primary
TMDb id is always kept by the dedup step of `_fetch_items`; the code drops it —
a singleton list holding one id-less item dedups to the empty list, so the
item is not in the output. -/
theorem fetch_dedup_counterexample :
    fetchDedup [mkMovie "Orphan" (some 2020) none] = [] ∧
      mkMovie "Orphan" (some 2020) none ∉ fetchDedup [mkMovie "Orphan" (some 2020) none] := by
  decide

/-- Claim C1 as amended: the dedup step of `_fetch_items` keeps a subsequence
of the concatenated provider results (original relative order preserved), all
surviving items carry a truthy TMDb id, surviving ids are pairwise distinct,
each survivor is the first occurrence of its id, and every truthy id present
in the input is represented in the output.  Items lacking a truthy TMDb id
are dropped, not kept. -/
theorem fetch_dedup_spec (items : List MediaItem) :
    (fetchDedup items).Sublist items ∧
    (∀ x ∈ fetchDedup items, truthyTmdb x = true) ∧
    (fetchDedup items).Pairwise (fun a b => tmdbKey a ≠ tmdbKey b) ∧
    (∀ y ∈ fetchDedup items,
      (items.filter (fun z => truthyTmdb z && tmdbKey z == tmdbKey y)).head? = some y) ∧
    (∀ x ∈ items, truthyTmdb x = true → ∃ y ∈ fetchDedup items, tmdbKey y = tmdbKey x) := by
  refine ⟨dedupAux_sublist [] items, ?_, dedupAux_pairwise [] items,
    dedupAux_first [] items, ?_⟩
  · intro x hx
    exact (dedupAux_mem [] items x hx).1
  · intro x hx ht
    exact dedupAux_cover [] items x hx ht (by simp)

/-- Claim C1 witness: the amended dedup specification evaluated on a concrete
two-item list sharing one TMDb id. -/
theorem fetch_dedup_spec_witness :
    ∃ y ∈ fetchDedup [mkMovie "A" none (some 5), mkMovie "B" none (some 5)],
      tmdbKey y = tmdbKey (mkMovie "B" none (some 5)) :=
  (fetch_dedup_spec [mkMovie "A" none (some 5), mkMovie "B" none (some 5)]).2.2.2.2
    (mkMovie "B" none (some 5)) (by decide) (by decide)

/-- Claim C2, counterexample: for an existing collection whose membership
already equals the target (one item, already a member), `sync_collection`
under the `name` (SORT_NAME) ordering issues no membership mutation at all —
`needs_reorder` is false because there is no membership change and the
collection existed — contradicting the claim that a full clear+readd is
issued. -/
theorem sync_reorder_counterexample :
    (syncCollection false id "c" CollectionOrder.sort_name
        [mkCItem "A" (some "x") none] false false [("c", {"x"})]).memberOps = [] ∧
    (syncCollection false id "c" CollectionOrder.sort_name
        [mkCItem "A" (some "x") none] false false [("c", {"x"})]).added = 0 ∧
    (syncCollection false id "c" CollectionOrder.sort_name
        [mkCItem "A" (some "x") none] false false [("c", {"x"})]).removed = 0 := by
  decide

/-- Claim C2 as amended: when the collection already exists remotely with
membership exactly equal to the computed target set, `sync_collection` issues
no membership mutation whatever the ordering policy (in particular under
SORT_NAME): `needs_reorder` requires a membership change or a newly created
collection, so the run is a membership no-op returning (0, 0) (the metadata
update is still issued, but the collection is not cleared and re-added). -/
theorem sync_reorder_spec (shuffle : List CollectionItem → List CollectionItem)
    (name : String) (order : CollectionOrder) (items : List CollectionItem)
    (p a : Bool) (state : List (String × Finset String))
    (h : state.find? (fun c => c.1 == name) =
      some (name, collectionTarget shuffle order items)) :
    (syncCollection false shuffle name order items p a state).memberOps = [] ∧
    (syncCollection false shuffle name order items p a state).added = 0 ∧
    (syncCollection false shuffle name order items p a state).removed = 0 :=
  sync_noop_of_current_eq_target shuffle name order items p a state h

/-- Claim C2 witness: the amended statement at a concrete existing collection
whose single member is the single matched item. -/
theorem sync_reorder_spec_witness :
    (syncCollection false id "w2" CollectionOrder.sort_name
        [mkCItem "W" (some "y") none] false false [("w2", {"y"})]).memberOps = [] :=
  (sync_reorder_spec id "w2" CollectionOrder.sort_name [mkCItem "W" (some "y") none]
    false false [("w2", {"y"})] (by decide)).1

/-- Claim C3: running `sync_collection` twice with unchanged items and no
intervening remote change, under any ordering policy other than `random`,
yields `to_add` and `to_remove` both empty on the second run and issues no
membership mutation: the first run leaves remote membership equal to the
target set, so the second run's diff is empty and, the collection now
existing with no membership change, no clear-and-readd is triggered. -/
theorem sync_idempotent (shuffle : List CollectionItem → List CollectionItem)
    (name : String) (order : CollectionOrder) (items : List CollectionItem)
    (p a : Bool) (state : List (String × Finset String))
    (_horder : order ≠ CollectionOrder.random) :
    (syncCollection false shuffle name order items p a
        (syncCollection false shuffle name order items p a state).collections).added = 0 ∧
    (syncCollection false shuffle name order items p a
        (syncCollection false shuffle name order items p a state).collections).removed = 0 ∧
    (syncCollection false shuffle name order items p a
        (syncCollection false shuffle name order items p a state).collections).memberOps = [] := by
  have h := sync_members_eq_target shuffle name order items p a state
  have h2 := sync_noop_of_current_eq_target shuffle name order items p a _ h
  exact ⟨h2.2.1, h2.2.2, h2.1⟩

/-- Claim C3 witness: second sync is a membership no-op on a concrete one-item
collection first synced into an empty remote state, under the `name` policy. -/
theorem sync_idempotent_witness :
    (syncCollection false id "w3" CollectionOrder.sort_name
        [mkCItem "V" (some "z") none] false false
        (syncCollection false id "w3" CollectionOrder.sort_name
          [mkCItem "V" (some "z") none] false false []).collections).memberOps = [] :=
  (sync_idempotent id "w3" CollectionOrder.sort_name [mkCItem "V" (some "z") none]
    false false [] (by decide)).2.2

/-- Claim C4, counterexample: the claim states a failing provider source does
not make `_fetch_items` propagate the error and the other sources still
contribute; in the code a raised provider error propagates immediately — with
a failing first source and a healthy second source the whole fetch evaluates
to that error, not to the second source's contribution. -/
theorem fetch_error_counterexample :
    fetchItems [Except.error "boom", Except.ok [mkMovie "B" none (some 2)]] =
      (Except.error "boom" : Except String (List MediaItem)) ∧
    fetchItems [Except.error "boom", Except.ok [mkMovie "B" none (some 2)]] ≠
      (Except.ok (fetchDedup [mkMovie "B" none (some 2)]) :
        Except String (List MediaItem)) := by
  constructor
  · rfl
  · exact fun h => Except.noConfusion h

/-- Claim C4 as amended: `_fetch_items` has no per-source error recovery: if
any configured source raises, the first raised error propagates out of
`_fetch_items` (and hence out of `build_collection`), the sources already
fetched contribute nothing for the cycle and no stats entry is produced — the
result is the error itself. -/
theorem fetch_error_spec {ε : Type} (pre : List (List MediaItem)) (e : ε)
    (post : List (Except ε (List MediaItem))) :
    fetchItems ((pre.map Except.ok) ++ Except.error e :: post) = Except.error e := by
  simp [fetchItems, collectSources_error]

/-- Claim C10: with `dry_run=True`, `sync_collection` returns (0, 0) for every
input and performs no remote mutation at all: no collection is created, no
membership operation is issued, no metadata is updated, no poster is uploaded,
the *arr step does not run, and the remote collection table is returned
unchanged. -/
theorem sync_dry_run_spec (shuffle : List CollectionItem → List CollectionItem)
    (name : String) (order : CollectionOrder) (items : List CollectionItem)
    (p a : Bool) (state : List (String × Finset String)) :
    syncCollection true shuffle name order items p a state =
      { added := 0, removed := 0, createdCollection := false, memberOps := [],
        metadataUpdated := false, posterUploaded := false, arrStepRun := false,
        collections := state } := rfl

/-- Claim C5: the match predicate holds iff the two items share a primary id
(TMDb), share a secondary id (IMDb), share a tertiary id (TVDB), or have equal
normalized titles with the year condition, where an absent year on either side
is a wildcard and two present years must differ by at most 1; in particular a
shared primary id matches despite different titles, a year difference of 1
with equal titles matches, and a year difference of 3 with equal titles does
not. -/
theorem is_match_spec :
    (∀ (a : MediaItem) (b : LibraryItem),
      is_match a b = true ↔
        ((∃ t : Int, a.tmdb_id = some t ∧ b.tmdb_id = some t) ∨
         (∃ s : String, a.imdb_id = some s ∧ b.imdb_id = some s) ∨
         (∃ t : Int, a.tvdb_id = some t ∧ b.tvdb_id = some t) ∨
         (normalize_title a.title = normalize_title b.title ∧
           (a.year = none ∨ b.year = none ∨
             ∃ ya yb : Int, a.year = some ya ∧ b.year = some yb ∧
               (ya - yb).natAbs ≤ 1)))) ∧
    is_match (mkMovie "Alpha" (some 2020) (some 7)) (mkLib "Beta" (some 1999) (some 7)) = true ∧
    is_match (mkMovie "Gamma" (some 2023) none) (mkLib "Gamma" (some 2024) none) = true ∧
    is_match (mkMovie "Delta" (some 2020) none) (mkLib "Delta" (some 2023) none) = false := by
  refine ⟨?_, by decide, by decide, by decide⟩
  intro a b
  simp only [is_match, isMatchF, MediaItem.matchFields, LibraryItem.matchFields,
    Bool.or_eq_true, Bool.and_eq_true, sameId_iff, yearClose_iff, beq_iff_eq]
  rw [or_assoc, or_assoc]

/-- Claim C6, counterexample: under the `name` (SORT_NAME) policy the claim
asserts ties in the sort key are broken by title; the code's name key has no
title tie-break — two items sharing a `sort_name` but with titles in reverse
order stay in input order, so the output is not ordered by (key, title). -/
theorem sort_items_counterexample :
    sortItemsForCollection id
        [mkCItem "B" none (some "same"), mkCItem "A" none (some "same")]
        CollectionOrder.sort_name =
      [mkCItem "B" none (some "same"), mkCItem "A" none (some "same")] ∧
    sortKeyName (mkCItem "B" none (some "same")) =
      sortKeyName (mkCItem "A" none (some "same")) ∧
    (mkCItem "A" none (some "same")).title < (mkCItem "B" none (some "same")).title ∧
    [mkCItem "B" none (some "same"), mkCItem "A" none (some "same")] ≠
      [mkCItem "A" none (some "same"), mkCItem "B" none (some "same")] := by
  have hk : sortKeyName (mkCItem "B" none (some "same")) =
      sortKeyName (mkCItem "A" none (some "same")) := rfl
  have hle : ascLe sortKeyName (mkCItem "B" none (some "same"))
      (mkCItem "A" none (some "same")) = true := by
    simp only [ascLe, hk]
    simp
  refine ⟨?_, hk, ?_, by decide⟩
  · simp [sortItemsForCollection, pySorted, pyInsert, hle]
  · show ("A" : String) < "B"
    rw [String.lt_iff_toList_lt]
    decide

/-- Claim C6 as amended: for the four deterministic sorting policies,
`_sort_items_for_collection` is a stable sort — the output is a permutation of
the input and is pairwise ordered: ascending by the lowercased
sort-name-or-title key for `name` (ties in that key keep input order, with no
title tie-break), descending by (premiere date, title) for `release-date`,
descending by rating with ascending-title tie-break for `rating` (the key
negates the rating), and descending by (date added, title) for `date-added`;
elements with equal full keys always keep their original relative order, so
repeated sorts of identical input produce identical output. -/
theorem sort_items_spec (shuffle : List CollectionItem → List CollectionItem)
    (items : List CollectionItem) :
    ((sortItemsForCollection shuffle items CollectionOrder.sort_name).Perm items ∧
      (sortItemsForCollection shuffle items CollectionOrder.sort_name).Pairwise
        (fun x y => sortKeyName x ≤ sortKeyName y) ∧
      (∀ c : String,
        (sortItemsForCollection shuffle items CollectionOrder.sort_name).filter
            (fun x => decide (sortKeyName x = c)) =
          items.filter (fun x => decide (sortKeyName x = c)))) ∧
    ((sortItemsForCollection shuffle items CollectionOrder.premiere_date).Perm items ∧
      (sortItemsForCollection shuffle items CollectionOrder.premiere_date).Pairwise
        (fun x y => sortKeyPremiere y ≤ sortKeyPremiere x) ∧
      (∀ c : PyDate ×ₗ String,
        (sortItemsForCollection shuffle items CollectionOrder.premiere_date).filter
            (fun x => decide (sortKeyPremiere x = c)) =
          items.filter (fun x => decide (sortKeyPremiere x = c)))) ∧
    ((sortItemsForCollection shuffle items CollectionOrder.community_rating).Perm items ∧
      (sortItemsForCollection shuffle items CollectionOrder.community_rating).Pairwise
        (fun x y => sortKeyRating x ≤ sortKeyRating y) ∧
      (∀ c : Rat ×ₗ String,
        (sortItemsForCollection shuffle items CollectionOrder.community_rating).filter
            (fun x => decide (sortKeyRating x = c)) =
          items.filter (fun x => decide (sortKeyRating x = c)))) ∧
    ((sortItemsForCollection shuffle items CollectionOrder.date_created).Perm items ∧
      (sortItemsForCollection shuffle items CollectionOrder.date_created).Pairwise
        (fun x y => sortKeyCreated y ≤ sortKeyCreated x) ∧
      (∀ c : PyDate ×ₗ String,
        (sortItemsForCollection shuffle items CollectionOrder.date_created).filter
            (fun x => decide (sortKeyCreated x = c)) =
          items.filter (fun x => decide (sortKeyCreated x = c)))) := by
  refine ⟨⟨?_, ?_, ?_⟩, ⟨?_, ?_, ?_⟩, ⟨?_, ?_, ?_⟩, ⟨?_, ?_, ?_⟩⟩
  · exact pySorted_perm (ascLe sortKeyName) items
  · exact (pySorted_pairwise (ascLe sortKeyName) (ascLe_trans sortKeyName)
      (ascLe_total sortKeyName) items).imp (fun h => by simpa [ascLe] using h)
  · intro c
    refine pySorted_filter (ascLe sortKeyName) _ ?_ items
    intro u v hu hv
    rw [decide_eq_true_eq] at hu hv
    simp [ascLe, hu, hv]
  · exact pySorted_perm (descLe sortKeyPremiere) items
  · exact (pySorted_pairwise (descLe sortKeyPremiere) (descLe_trans sortKeyPremiere)
      (descLe_total sortKeyPremiere) items).imp (fun h => by simpa [descLe] using h)
  · intro c
    refine pySorted_filter (descLe sortKeyPremiere) _ ?_ items
    intro u v hu hv
    rw [decide_eq_true_eq] at hu hv
    simp [descLe, hu, hv]
  · exact pySorted_perm (ascLe sortKeyRating) items
  · exact (pySorted_pairwise (ascLe sortKeyRating) (ascLe_trans sortKeyRating)
      (ascLe_total sortKeyRating) items).imp (fun h => by simpa [ascLe] using h)
  · intro c
    refine pySorted_filter (ascLe sortKeyRating) _ ?_ items
    intro u v hu hv
    rw [decide_eq_true_eq] at hu hv
    simp [ascLe, hu, hv]
  · exact pySorted_perm (descLe sortKeyCreated) items
  · exact (pySorted_pairwise (descLe sortKeyCreated) (descLe_trans sortKeyCreated)
      (descLe_total sortKeyCreated) items).imp (fun h => by simpa [descLe] using h)
  · intro c
    refine pySorted_filter (descLe sortKeyCreated) _ ?_ items
    intro u v hu hv
    rw [decide_eq_true_eq] at hu hv
    simp [descLe, hu, hv]

/-- Claim C7, counterexample: the normalizer strips a single leading article
only, so it is not idempotent — normalizing "The The Movie" yields
"the movie", which normalizes further to "movie". -/
theorem normalize_idem_counterexample :
    normalize_title (normalize_title "The The Movie") ≠
      normalize_title "The The Movie" := by
  decide

/-- Claim C7 as amended: the normalizer is idempotent exactly on the inputs
whose normalized form does not again begin with an article token followed by
whitespace (a single leading article is stripped per pass); in particular
normalize("THE Movie") = normalize("the movie") = "movie" and
normalize("Movie: Part 2") = "movie part 2". -/
theorem normalize_idem_spec :
    (∀ s : String,
      stripOneArticle (normalize_title s).data = (normalize_title s).data →
      normalize_title (normalize_title s) = normalize_title s) ∧
    normalize_title "THE Movie" = "movie" ∧
    normalize_title "the movie" = "movie" ∧
    normalize_title "Movie: Part 2" = "movie part 2" :=
  ⟨fun s h => normalize_title_idem_of s h, by decide, by decide, by decide⟩

/-- Claim C7 witness: idempotence at the concrete input "THE Movie", whose
normal form "movie" starts with no article. -/
theorem normalize_idem_spec_witness :
    normalize_title (normalize_title "THE Movie") = normalize_title "THE Movie" :=
  normalize_idem_spec.1 "THE Movie" (by decide)

/-- Claim C8: `_apply_filters` never excludes an item for an attribute it does
not carry — each numeric guard passes when the corresponding attribute is
absent, each set-membership guard passes when the attribute is missing, and an
item carrying none of the filterable attributes passes the whole chain for
every filter configuration (and survives `_apply_filters` unchanged). -/
theorem filters_absence_spec (f : Filters) (i : MediaItem) :
    (i.year = none → rejYearGte f i = false ∧ rejYearLte f i = false) ∧
    (i.vote_average = none → rejVoteAvg f i = false ∧ rejCritic f i = false) ∧
    (i.vote_count = none → rejVoteCount f i = false) ∧
    (i.original_country = none →
      rejCountryNot f i = false ∧ rejOriginCountryNot f i = false) ∧
    (i.original_language = none → rejLangNot f i = false) ∧
    (i.genres = [] → rejWithoutGenres f i = false ∧ rejWithGenres f i = false) ∧
    (i.year = none → i.vote_average = none → i.vote_count = none →
      i.original_country = none → i.original_language = none → i.genres = [] →
      itemPasses f i = true ∧ applyFilters f none [i] = [i]) := by
  refine ⟨?_, ?_, ?_, ?_, ?_, ?_, ?_⟩
  · intro h
    constructor
    · cases hf : f.year_gte <;> simp [rejYearGte, h, hf]
    · cases hf : f.year_lte <;> simp [rejYearLte, h, hf]
  · intro h
    constructor
    · cases hf : f.vote_average_gte <;> simp [rejVoteAvg, h, hf]
    · cases hf : f.critic_rating_gte <;> simp [rejCritic, h, hf]
  · intro h
    cases hf : f.tmdb_vote_count_gte <;> simp [rejVoteCount, h, hf]
  · intro h
    exact ⟨by simp [rejCountryNot, h], by simp [rejOriginCountryNot, h]⟩
  · intro h
    simp [rejLangNot, h]
  · intro h
    exact ⟨by simp [rejWithoutGenres, h], by simp [rejWithGenres, h]⟩
  · intro h1 h2 h3 h4 h5 h6
    have r1 : rejYearGte f i = false := by
      cases hf : f.year_gte <;> simp [rejYearGte, h1, hf]
    have r2 : rejYearLte f i = false := by
      cases hf : f.year_lte <;> simp [rejYearLte, h1, hf]
    have r3 : rejVoteAvg f i = false := by
      cases hf : f.vote_average_gte <;> simp [rejVoteAvg, h2, hf]
    have r4 : rejCritic f i = false := by
      cases hf : f.critic_rating_gte <;> simp [rejCritic, h2, hf]
    have r5 : rejVoteCount f i = false := by
      cases hf : f.tmdb_vote_count_gte <;> simp [rejVoteCount, h3, hf]
    have r6 : rejCountryNot f i = false := by simp [rejCountryNot, h4]
    have r7 : rejOriginCountryNot f i = false := by simp [rejOriginCountryNot, h4]
    have r8 : rejLangNot f i = false := by simp [rejLangNot, h5]
    have r9 : rejWithoutGenres f i = false := by simp [rejWithoutGenres, h6]
    have r10 : rejWithGenres f i = false := by simp [rejWithGenres, h6]
    have hp : itemPasses f i = true := by
      simp [itemPasses, r1, r2, r3, r4, r5, r6, r7, r8, r9, r10]
    exact ⟨hp, by simp [applyFilters, List.filter, hp]⟩

/-- Claim C8 witness: an item with no `vote_count` passes a `vote_count_gte`
filter of 100. -/
theorem filters_absence_spec_witness :
    rejVoteCount
      { year_gte := none, year_lte := none, vote_average_gte := none,
        critic_rating_gte := none, tmdb_vote_count_gte := some 100,
        country_not := [], origin_country_not := [], original_language_not := [],
        without_genres := [], with_genres := [] }
      (mkMovie "NoVotes" none none) = false :=
  (filters_absence_spec _ (mkMovie "NoVotes" none none)).2.2.1 rfl

/-- Claim C9: the match predicate is symmetric in the match-relevant fields:
`is_match(a, b) == is_match(b, a)` for every pair. -/
theorem is_match_symm (f g : MatchFields) : isMatchF f g = isMatchF g f := by
  unfold isMatchF
  rw [sameId_comm f.tmdb_id g.tmdb_id, sameId_comm f.imdb_id g.imdb_id,
    sameId_comm f.tvdb_id g.tvdb_id, yearClose_comm f.year g.year,
    beqStr_comm (normalize_title f.title) (normalize_title g.title)]

end JFC
